import Mathlib

set_option maxHeartbeats 1000000

/-! Shallow embedding of the todo-tui application (src/main.rs).

The in-memory model is the `App` struct: the todo list, the ratatui
`ListState` selection (modelled as `Option Nat`), the input buffer and the
modal flag. Persistence goes through serde_json; we model JSON at the
value level (`Json`) with the field-by-field deserialization behaviour of
the derived `Deserialize` impl (unknown fields ignored, duplicate fields
rejected, missing or ill-typed fields rejected). File-system failure
(absent, unreadable or syntactically invalid file) is modelled by the
`Option Json` argument of `App.load` being `none`. Each mutating action
returns the new state together with a `Bool` recording whether `save()`
was invoked. -/

/-- One todo item: display text and completion flag (`TodoItem` in the source). -/
structure TodoItem where
  text : String
  completed : Bool
deriving DecidableEq

/-- JSON values, the serialization target of serde_json. -/
inductive Json where
  | null : Json
  | bool : Bool → Json
  | num : Int → Json
  | str : String → Json
  | arr : List Json → Json
  | obj : List (String × Json) → Json

/-- Application state (`App` in the source). `selected` models
`ListState::selected()`. -/
structure App where
  todos : List TodoItem
  selected : Option Nat
  input : String
  input_mode : Bool
deriving DecidableEq

/-- `App::new()`: four tutorial items, first item selected, navigation mode,
empty input buffer. -/
def App.new : App :=
  { todos := [
      { text := "Press \x27a\x27 to add a todo", completed := false },
      { text := "Press \x27Space\x27 to toggle completion", completed := false },
      { text := "Press \x27d\x27 to delete a todo", completed := false },
      { text := "Press \x27q\x27 to quit", completed := false }],
    selected := some 0,
    input := "",
    input_mode := false }

/-- Serialization of one item: serde writes struct fields in declaration
order, `text` then `completed`. -/
def TodoItem.toJson (t : TodoItem) : Json :=
  Json.obj [("text", Json.str t.text), ("completed", Json.bool t.completed)]

/-- Serialization of the whole list: a JSON array in list order. -/
def todosToJson (ts : List TodoItem) : Json :=
  Json.arr (ts.map TodoItem.toJson)

/-- `App::save()`: the JSON value written to `todos.json` (the list only;
selection, mode and buffer are never persisted). -/
def App.save (a : App) : Json :=
  todosToJson a.todos

/-- The field-collection loop of the derived `Deserialize` for `TodoItem`:
walk the object entries, remember the first `text` and `completed` values,
error on a duplicate of either, ignore unknown keys, and require both
fields present at the end. -/
def collectFields : List (String × Json) → Option Json → Option Json →
    Option (Json × Json)
  | [], tv, cv =>
    match tv, cv with
    | some t, some c => some (t, c)
    | _, _ => none
  | (k, v) :: rest, tv, cv =>
    if k = "text" then
      match tv with
      | some _ => none
      | none => collectFields rest (some v) cv
    else if k = "completed" then
      match cv with
      | some _ => none
      | none => collectFields rest tv (some v)
    else
      collectFields rest tv cv

/-- Deserialization of one item: an object whose `text` field is a string
and whose `completed` field is a boolean. -/
def TodoItem.fromJson : Json → Option TodoItem
  | Json.obj fields =>
    match collectFields fields none none with
    | some (Json.str t, Json.bool c) => some { text := t, completed := c }
    | _ => none
  | _ => none

/-- Deserialization of a sequence of items; any element failing makes the
whole parse fail (serde seq semantics). -/
def parseItems : List Json → Option (List TodoItem)
  | [] => some []
  | j :: rest =>
    match TodoItem.fromJson j with
    | none => none
    | some t =>
      match parseItems rest with
      | none => none
      | some ts => some (t :: ts)

/-- Deserialization of `Vec<TodoItem>`: a JSON array of items. -/
def todosFromJson : Json → Option (List TodoItem)
  | Json.arr xs => parseItems xs
  | _ => none

/-- `App::load()`: start from `App::new()`; if the file was readable
(`file = some j`), its contents deserialize, and the resulting list is
non-empty, install that list and select index 0; otherwise keep the
defaults. `file = none` models an absent, unreadable or syntactically
malformed file. -/
def App.load (file : Option Json) : App :=
  let app := App.new
  match file with
  | none => app
  | some j =>
    match todosFromJson j with
    | none => app
    | some ts =>
      if ts.isEmpty then app
      else { app with todos := ts, selected := some 0 }

/-- `App::next()`: no-op on an empty list; otherwise advance the selection,
wrapping from the last index to 0; from `None` start at 0. -/
def App.next (a : App) : App :=
  if a.todos.isEmpty then a
  else
    let i :=
      match a.selected with
      | some i => if a.todos.length - 1 ≤ i then 0 else i + 1
      | none => 0
    { a with selected := some i }

/-- `App::previous()`: no-op on an empty list; otherwise move the selection
back, wrapping from 0 to the last index; from `None` the source also picks 0. -/
def App.previous (a : App) : App :=
  if a.todos.isEmpty then a
  else
    let i :=
      match a.selected with
      | some i => if i = 0 then a.todos.length - 1 else i - 1
      | none => 0
    { a with selected := some i }

/-- `App::toggle_completed()`: if the selection exists and is in bounds,
flip the `completed` flag of that item and save; otherwise do nothing. The
returned `Bool` records whether `save()` ran. -/
def App.toggle_completed (a : App) : App × Bool :=
  match a.selected with
  | none => (a, false)
  | some i =>
    if h : i < a.todos.length then
      ({ a with todos :=
          a.todos.set i { a.todos[i] with completed := !(a.todos[i]).completed } },
       true)
    else (a, false)

/-- `App::delete_selected()`: if the selection exists and is in bounds,
remove that item (`Vec::remove`, i.e. `eraseIdx`), then repair the
selection: `None` if the list is now empty, else the new last index if the
removed index fell off the end, else the same index; then save. -/
def App.delete_selected (a : App) : App × Bool :=
  match a.selected with
  | none => (a, false)
  | some i =>
    if i < a.todos.length then
      let ts := a.todos.eraseIdx i
      let sel : Option Nat :=
        if ts.isEmpty then none
        else some (if ts.length ≤ i then ts.length - 1 else i)
      ({ a with todos := ts, selected := sel }, true)
    else (a, false)

/-- `App::add_todo()`: if the input buffer is non-empty, push
`{text: buffer, completed: false}`, clear the buffer, leave input mode,
select the new last index and save; on an empty buffer do nothing. -/
def App.add_todo (a : App) : App × Bool :=
  if a.input.isEmpty then (a, false)
  else
    let ts := a.todos ++ [{ text := a.input, completed := false }]
    ({ todos := ts, selected := some (ts.length - 1),
       input := "", input_mode := false }, true)

/-- The key codes `run_app` inspects (all other codes fall into `other`). -/
inductive KeyCode where
  | enter : KeyCode
  | backspace : KeyCode
  | esc : KeyCode
  | down : KeyCode
  | up : KeyCode
  | char : Char → KeyCode
  | other : KeyCode

/-- One dispatch step of `run_app` on a key-press event. `none` means the
loop returns (the quit key in navigation mode). In input mode: Enter
commits, a character is pushed onto the buffer, Backspace pops it
(`String::pop`, a no-op on an empty buffer), Esc leaves input mode and
clears the buffer. In navigation mode: q quits, Down/j and Up/k move,
space toggles, d deletes, a enters input mode. -/
def dispatch (k : KeyCode) (a : App) : Option App :=
  if a.input_mode then
    match k with
    | KeyCode.enter => some a.add_todo.1
    | KeyCode.char c => some { a with input := a.input.push c }
    | KeyCode.backspace => some { a with input := a.input.dropRight 1 }
    | KeyCode.esc => some { a with input_mode := false, input := "" }
    | _ => some a
  else
    match k with
    | KeyCode.down => some a.next
    | KeyCode.up => some a.previous
    | KeyCode.char c =>
      if c = 'q' then none
      else if c = 'j' then some a.next
      else if c = 'k' then some a.previous
      else if c = ' ' then some a.toggle_completed.1
      else if c = 'd' then some a.delete_selected.1
      else if c = 'a' then some { a with input_mode := true }
      else some a
    | _ => some a

/-- Iterated dispatch: run a list of key events from a state; a quit stops
the loop and leaves the state as it was. -/
def steps (a : App) : List KeyCode → App
  | [] => a
  | k :: ks =>
    match dispatch k a with
    | none => a
    | some b => steps b ks

/-- The selection invariant of the spec: selection is `none` exactly when
the list is empty, and otherwise a valid index. -/
def selection_ok (a : App) : Bool :=
  match a.selected with
  | none => a.todos.isEmpty
  | some s => decide (s < a.todos.length)

/-- A concrete input-mode state with a pending buffer, used to exercise the
commit path on explicit inputs. -/
def bufApp : App :=
  { todos := [], selected := none, input := "Buy milk", input_mode := true }

/-- A concrete three-item navigation state, used to exercise deletion and
toggling on explicit inputs. -/
def threeApp : App :=
  { todos := [
      { text := "one", completed := false },
      { text := "two", completed := true },
      { text := "three", completed := false }],
    selected := some 1,
    input := "",
    input_mode := false }

theorem string_isEmpty_false {s : String} (h : s ≠ "") : s.isEmpty = false := by
  cases hb : s.isEmpty with
  | true => exact absurd ((String.isEmpty_iff s).mp hb) h
  | false => rfl

theorem string_isEmpty_true {s : String} (h : s = "") : s.isEmpty = true := by
  subst h; rfl

theorem list_set_self {α : Type} (l : List α) (i : Nat) (h : i < l.length) :
    l.set i l[i] = l := by
  apply List.ext_getElem?
  intro n
  rw [List.getElem?_set]
  split
  · next heq =>
    subst heq
    simp [h]
  · rfl

/-- C9: if the selection is out of bounds (`some i` with `i ≥ len`), both
`toggle_completed` and `delete_selected` fall through their bounds checks:
the state is unchanged and no save happens. -/
theorem oob_guard (a : App) (i : Nat) (hs : a.selected = some i)
    (hi : a.todos.length ≤ i) :
    a.toggle_completed = (a, false) ∧ a.delete_selected = (a, false) := by
  have hlt : ¬ i < a.todos.length := by omega
  constructor
  · simp [App.toggle_completed, hs, hlt]
  · simp [App.delete_selected, hs, hlt]

theorem oob_guard_witness :
    ({ todos := [], selected := some 0, input := "", input_mode := false } : App).toggle_completed
        = ({ todos := [], selected := some 0, input := "", input_mode := false }, false) ∧
      ({ todos := [], selected := some 0, input := "", input_mode := false } : App).delete_selected
        = ({ todos := [], selected := some 0, input := "", input_mode := false }, false) :=
  oob_guard _ 0 rfl (by decide)

/-- C10: on a non-empty list with no selection, both `next` and `previous`
set the selection to index 0 (both arms of the `None` case pick 0). -/
theorem none_selection_resets_to_zero (a : App) (hne : a.todos ≠ [])
    (hs : a.selected = none) :
    a.next = { a with selected := some 0 } ∧
    a.previous = { a with selected := some 0 } := by
  have he : a.todos.isEmpty = false := by simp [hne]
  constructor
  · simp [App.next, he, hs]
  · simp [App.previous, he, hs]

theorem none_selection_resets_to_zero_witness :
    ({ todos := [{ text := "x", completed := false }], selected := none,
       input := "", input_mode := false } : App).next
      = { todos := [{ text := "x", completed := false }], selected := some 0,
          input := "", input_mode := false } ∧
    ({ todos := [{ text := "x", completed := false }], selected := none,
       input := "", input_mode := false } : App).previous
      = { todos := [{ text := "x", completed := false }], selected := some 0,
          input := "", input_mode := false } :=
  none_selection_resets_to_zero _ (by decide) rfl

/-- C6: with a valid selection, `next` steps forward wrapping from the last
index to 0 and `previous` steps back wrapping from 0 to the last index; on
an empty list both are no-ops (in particular a `none` selection stays
`none`). -/
theorem wraparound_navigation :
    (∀ a : App, a.todos = [] →
      a.next = a ∧ a.previous = a ∧
      (a.selected = none → a.next.selected = none ∧ a.previous.selected = none)) ∧
    (∀ (a : App) (i : Nat), a.selected = some i → i < a.todos.length →
      a.next.selected = some (if i = a.todos.length - 1 then 0 else i + 1) ∧
      a.previous.selected = some (if i = 0 then a.todos.length - 1 else i - 1) ∧
      a.next.todos = a.todos ∧ a.previous.todos = a.todos) := by
  constructor
  · intro a h
    have he : a.todos.isEmpty = true := by simp [h]
    refine ⟨by simp [App.next, he], by simp [App.previous, he], ?_⟩
    intro hs
    constructor
    · simp [App.next, he, hs]
    · simp [App.previous, he, hs]
  · intro a i hs hi
    have he : a.todos.isEmpty = false := by
      simp only [List.isEmpty_eq_false]
      intro h
      rw [h] at hi
      exact absurd hi (by simp)
    refine ⟨?_, ?_, by simp [App.next, he], by simp [App.previous, he]⟩
    · by_cases hc : i = a.todos.length - 1
      · have hc2 : a.todos.length - 1 ≤ i := by omega
        simp [App.next, he, hs, hc, hc2]
      · have hc2 : ¬ a.todos.length - 1 ≤ i := by omega
        simp [App.next, he, hs, hc, hc2]
    · by_cases hc : i = 0
      · simp [App.previous, he, hs, hc]
      · simp [App.previous, he, hs, hc]

theorem wraparound_navigation_witness :
    App.new.next.selected = some (if 0 = App.new.todos.length - 1 then 0 else 0 + 1) ∧
    App.new.previous.selected = some (if 0 = 0 then App.new.todos.length - 1 else 0 - 1) ∧
    App.new.next.todos = App.new.todos ∧ App.new.previous.todos = App.new.todos :=
  wraparound_navigation.2 App.new 0 rfl (by decide)

/-- C4: in input mode, committing with a non-empty buffer (no trimming)
appends `{text: buffer, completed: false}`, clears the buffer, returns to
navigation mode, selects the new last index and saves; committing with an
empty buffer changes nothing and mode remains Input. -/
theorem add_todo_commit (a : App) (hm : a.input_mode = true) :
    (a.input ≠ "" →
      a.add_todo.1.todos = a.todos ++ [{ text := a.input, completed := false }] ∧
      a.add_todo.1.input = "" ∧
      a.add_todo.1.input_mode = false ∧
      a.add_todo.1.selected = some (a.add_todo.1.todos.length - 1) ∧
      a.add_todo.1.selected = some a.todos.length ∧
      a.add_todo.2 = true) ∧
    (a.input = "" →
      a.add_todo = (a, false) ∧ a.add_todo.1.input_mode = true) := by
  constructor
  · intro hne
    have he : a.input.isEmpty = false := string_isEmpty_false hne
    refine ⟨by simp [App.add_todo, he], by simp [App.add_todo, he],
      by simp [App.add_todo, he], by simp [App.add_todo, he],
      by simp [App.add_todo, he], by simp [App.add_todo, he]⟩
  · intro hemp
    have he : a.input.isEmpty = true := string_isEmpty_true hemp
    constructor
    · simp [App.add_todo, he]
    · simp [App.add_todo, he, hm]

theorem add_todo_commit_witness :
    bufApp.add_todo.1.todos = bufApp.todos ++ [{ text := bufApp.input, completed := false }] ∧
    bufApp.add_todo.1.input = "" ∧
    bufApp.add_todo.1.input_mode = false ∧
    bufApp.add_todo.1.selected = some (bufApp.add_todo.1.todos.length - 1) ∧
    bufApp.add_todo.1.selected = some bufApp.todos.length ∧
    bufApp.add_todo.2 = true :=
  (add_todo_commit bufApp rfl).1 (by decide)

/-- C1: the selection invariant (selection `none` iff the list is empty,
otherwise a valid index) holds at startup via `new` and `load`, and is
preserved by every `add_todo` and `delete_selected`. -/
theorem selection_invariant :
    selection_ok App.new = true ∧
    (∀ file : Option Json, selection_ok (App.load file) = true) ∧
    (∀ a : App, selection_ok a = true →
      selection_ok a.add_todo.1 = true ∧ selection_ok a.delete_selected.1 = true) := by
  refine ⟨rfl, ?_, ?_⟩
  · intro file
    cases file with
    | none => rfl
    | some j =>
      unfold App.load
      cases hp : todosFromJson j with
      | none => simp [hp]; rfl
      | some ts =>
        cases hts : ts.isEmpty with
        | true => simp [hp, hts]; rfl
        | false =>
          have hlen : 0 < ts.length := by
            cases ts with
            | nil => simp at hts
            | cons x xs => simp
          simp [hp, hts, selection_ok, hlen]
  · intro a h
    constructor
    · by_cases hin : a.input.isEmpty
      · simpa [App.add_todo, hin] using h
      · have hb : a.input.isEmpty = false := by simpa using hin
        simp [App.add_todo, hb, selection_ok]
    · cases hsel : a.selected with
      | none => simpa [App.delete_selected, hsel] using h
      | some i =>
        by_cases hi : i < a.todos.length
        · have hlen : (a.todos.eraseIdx i).length = a.todos.length - 1 := by
            rw [List.length_eraseIdx]
            simp [hi]
          cases hts : (a.todos.eraseIdx i).isEmpty with
          | true =>
            simp [App.delete_selected, hsel, hi, hts, selection_ok]
          | false =>
            have hlen2 : 0 < (a.todos.eraseIdx i).length :=
              List.length_pos.mpr (List.isEmpty_eq_false.mp hts)
            simp [App.delete_selected, hsel, hi, hts, selection_ok]
            split <;> omega
        · simpa [App.delete_selected, hsel, hi] using h

theorem selection_invariant_witness :
    selection_ok App.new.add_todo.1 = true ∧
    selection_ok App.new.delete_selected.1 = true :=
  selection_invariant.2.2 App.new (by decide)

/-- C2: with a valid selection `i`, `delete_selected` removes item `i`
(leaving the prefix before `i` and the suffix after it), saves, and repairs
the selection: `none` if the list became empty, the new last index if `i`
was the last index, and the unchanged index `i` otherwise — which then
refers to the item that followed the deleted one. -/
theorem delete_selected_repair (a : App) (i : Nat)
    (hs : a.selected = some i) (hi : i < a.todos.length) :
    a.delete_selected.1.todos = a.todos.take i ++ a.todos.drop (i + 1) ∧
    a.delete_selected.2 = true ∧
    (a.todos.length = 1 → a.delete_selected.1.selected = none) ∧
    (1 < a.todos.length → i = a.todos.length - 1 →
      a.delete_selected.1.selected = some (a.delete_selected.1.todos.length - 1)) ∧
    (i < a.todos.length - 1 →
      a.delete_selected.1.selected = some i ∧
      a.delete_selected.1.todos[i]? = a.todos[i + 1]?) := by
  have hlen : (a.todos.eraseIdx i).length = a.todos.length - 1 := by
    rw [List.length_eraseIdx]; simp [hi]
  refine ⟨?_, ?_, ?_, ?_, ?_⟩
  · simp [App.delete_selected, hs, hi, List.eraseIdx_eq_take_drop_succ]
  · simp [App.delete_selected, hs, hi]
  · intro h1
    have hemp : (a.todos.eraseIdx i).isEmpty = true := by
      rw [List.isEmpty_iff, ← List.length_eq_zero]; omega
    simp [App.delete_selected, hs, hi, hemp]
  · intro h2 hlast
    have hemp : (a.todos.eraseIdx i).isEmpty = false := by
      rw [List.isEmpty_eq_false, ← List.length_pos]; omega
    have hcond : (a.todos.eraseIdx i).length ≤ i := by omega
    simp [App.delete_selected, hs, hi, hemp, hcond]
  · intro hmid
    have hemp : (a.todos.eraseIdx i).isEmpty = false := by
      rw [List.isEmpty_eq_false, ← List.length_pos]; omega
    have hcond : ¬ (a.todos.eraseIdx i).length ≤ i := by omega
    refine ⟨by simp [App.delete_selected, hs, hi, hemp, hcond], ?_⟩
    simp [App.delete_selected, hs, hi, List.getElem?_eraseIdx]

theorem delete_selected_repair_witness :
    threeApp.delete_selected.1.todos = threeApp.todos.take 1 ++ threeApp.todos.drop 2 ∧
    threeApp.delete_selected.2 = true ∧
    (threeApp.todos.length = 1 → threeApp.delete_selected.1.selected = none) ∧
    (1 < threeApp.todos.length → 1 = threeApp.todos.length - 1 →
      threeApp.delete_selected.1.selected = some (threeApp.delete_selected.1.todos.length - 1)) ∧
    (1 < threeApp.todos.length - 1 →
      threeApp.delete_selected.1.selected = some 1 ∧
      threeApp.delete_selected.1.todos[1]? = threeApp.todos[2]?) :=
  delete_selected_repair threeApp 1 rfl (by decide)

theorem app_fields_eq {x y : App} (ht : x.todos = y.todos)
    (hs : x.selected = y.selected) (hin : x.input = y.input)
    (hm : x.input_mode = y.input_mode) : x = y := by
  cases x; cases y; simp_all

theorem toggle_frame (a : App) :
    a.toggle_completed.1.selected = a.selected ∧
    a.toggle_completed.1.input = a.input ∧
    a.toggle_completed.1.input_mode = a.input_mode ∧
    a.toggle_completed.1.todos.length = a.todos.length := by
  rcases hs : a.selected with _ | i
  · simp [App.toggle_completed, hs]
  · by_cases hi : i < a.todos.length
    · simp [App.toggle_completed, hs, hi]
    · simp [App.toggle_completed, hs, hi]

theorem toggle_todos_elem (a : App) (i : Nat) (hs : a.selected = some i)
    (hi : i < a.todos.length) (j : Nat) :
    a.toggle_completed.1.todos[j]? =
      if j = i then
        (a.todos[j]?).map (fun t => { t with completed := !t.completed })
      else a.todos[j]? := by
  have h1 : a.toggle_completed.1 = { a with todos := a.todos.set i { a.todos[i] with completed := !(a.todos[i]).completed } } := by
    simp [App.toggle_completed, hs, hi]
  rw [h1]
  by_cases hj : j = i
  · subst hj
    rw [List.getElem?_set_self hi, List.getElem?_eq_getElem hi]
    simp
  · have hij : i ≠ j := Ne.symm hj
    rw [List.getElem?_set_ne hij]
    simp [hj]

/-- C7: with a valid selection `i`, toggling twice restores the state
exactly; one toggle saves, keeps the length, the selection, every other
item, and the text of item `i`, and flips the completed flag of item `i`; with no
selection, `toggle_completed` is a no-op and does not save. -/
theorem toggle_completed_props :
    (∀ a : App, a.selected = none → a.toggle_completed = (a, false)) ∧
    (∀ (a : App) (i : Nat), a.selected = some i → i < a.todos.length →
      a.toggle_completed.1.toggle_completed.1 = a ∧
      a.toggle_completed.2 = true ∧
      a.toggle_completed.1.todos.length = a.todos.length ∧
      a.toggle_completed.1.selected = a.selected ∧
      (∀ j : Nat, j ≠ i → a.toggle_completed.1.todos[j]? = a.todos[j]?) ∧
      ((a.toggle_completed.1.todos[i]?).map TodoItem.text
        = (a.todos[i]?).map TodoItem.text) ∧
      ((a.toggle_completed.1.todos[i]?).map TodoItem.completed
        = (a.todos[i]?).map (fun t => !t.completed))) := by
  constructor
  · intro a hs
    simp [App.toggle_completed, hs]
  · intro a i hs hi
    have hf := toggle_frame a
    have hs1 : a.toggle_completed.1.selected = some i := by rw [hf.1, hs]
    have hi1 : i < a.toggle_completed.1.todos.length := by rw [hf.2.2.2]; exact hi
    refine ⟨?_, by simp [App.toggle_completed, hs, hi], hf.2.2.2, hf.1, ?_, ?_, ?_⟩
    · have hf2 := toggle_frame a.toggle_completed.1
      apply app_fields_eq
      · apply List.ext_getElem?
        intro j
        rw [toggle_todos_elem a.toggle_completed.1 i hs1 hi1 j,
            toggle_todos_elem a i hs hi j]
        by_cases hj : j = i
        · subst hj
          rw [if_pos rfl, if_pos rfl, Option.map_map, List.getElem?_eq_getElem hi]
          simp
        · rw [if_neg hj, if_neg hj]
      · rw [hf2.1, hf.1]
      · rw [hf2.2.1, hf.2.1]
      · rw [hf2.2.2.1, hf.2.2.1]
    · intro j hj
      rw [toggle_todos_elem a i hs hi j, if_neg hj]
    · rw [toggle_todos_elem a i hs hi i, if_pos rfl, List.getElem?_eq_getElem hi]
      simp
    · rw [toggle_todos_elem a i hs hi i, if_pos rfl, List.getElem?_eq_getElem hi]
      simp

theorem toggle_completed_props_witness :
    threeApp.toggle_completed.1.toggle_completed.1 = threeApp ∧
    threeApp.toggle_completed.2 = true ∧
    threeApp.toggle_completed.1.todos.length = threeApp.todos.length ∧
    threeApp.toggle_completed.1.selected = threeApp.selected ∧
    (∀ j : Nat, j ≠ 1 → threeApp.toggle_completed.1.todos[j]? = threeApp.todos[j]?) ∧
    ((threeApp.toggle_completed.1.todos[1]?).map TodoItem.text
      = (threeApp.todos[1]?).map TodoItem.text) ∧
    ((threeApp.toggle_completed.1.todos[1]?).map TodoItem.completed
      = (threeApp.todos[1]?).map (fun t => !t.completed)) :=
  toggle_completed_props.2 threeApp 1 rfl (by decide)

theorem fromJson_toJson (t : TodoItem) : TodoItem.fromJson t.toJson = some t := rfl

theorem parseItems_map_toJson (ts : List TodoItem) :
    parseItems (ts.map TodoItem.toJson) = some ts := by
  induction ts with
  | nil => rfl
  | cons t rest ih => simp [parseItems, fromJson_toJson, ih]

/-- C3 counterexample: saving an empty list and loading it back does not
yield the empty list — `load` falls back to the four default items. -/
theorem save_load_roundtrip_cex :
    (App.load (some (App.save { todos := [], selected := none, input := "", input_mode := false }))).todos
      ≠ ([] : List TodoItem) := by
  decide

/-- C3 (amended): for every state with a NON-empty list, saving and then
loading yields an equal in-memory list, preserving order and, for each item, text
and completed flag exactly. -/
theorem save_load_roundtrip (a : App) (h : a.todos ≠ []) :
    (App.load (some a.save)).todos = a.todos := by
  have hp : todosFromJson a.save = some a.todos := by
    simp [App.save, todosToJson, todosFromJson, parseItems_map_toJson]
  have hne : a.todos.isEmpty = false := by simp [h]
  simp [App.load, hp, hne]

theorem save_load_roundtrip_witness :
    (App.load (some threeApp.save)).todos = threeApp.todos :=
  save_load_roundtrip threeApp (by decide)

/-- C5: if the file is absent/unreadable/syntactically malformed
(`file = none`), or its JSON does not deserialize to `Vec<TodoItem>`, or it
deserializes to the empty list, `load` returns exactly the state of `new()`:
the default 4-item tutorial list (each item not completed), selection
`some 0`, navigation mode, empty input buffer. -/
theorem load_fallback (file : Option Json)
    (h : file.bind todosFromJson = none ∨ file.bind todosFromJson = some []) :
    App.load file = App.new ∧
    App.new.todos.length = 4 ∧
    (∀ t ∈ App.new.todos, t.completed = false) ∧
    App.new.selected = some 0 ∧
    App.new.input_mode = false ∧
    App.new.input = "" := by
  refine ⟨?_, by decide, by decide, rfl, rfl, rfl⟩
  cases file with
  | none => rfl
  | some j =>
    simp only [Option.some_bind] at h
    cases hp : todosFromJson j with
    | none => simp [App.load, hp]
    | some ts =>
      rw [hp] at h
      rcases h with h | h
      · exact absurd h (by simp)
      · have hts : ts = [] := by simpa using h
        subst hts
        simp [App.load, hp]

theorem load_fallback_witness :
    App.load (some (Json.str "garbage")) = App.new ∧
    App.new.todos.length = 4 ∧
    (∀ t ∈ App.new.todos, t.completed = false) ∧
    App.new.selected = some 0 ∧
    App.new.input_mode = false ∧
    App.new.input = "" :=
  load_fallback (some (Json.str "garbage")) (Or.inl rfl)

theorem next_frame (a : App) :
    a.next.input = a.input ∧ a.next.input_mode = a.input_mode := by
  cases he : a.todos.isEmpty with
  | true => simp [App.next, he]
  | false => simp [App.next, he]

theorem previous_frame (a : App) :
    a.previous.input = a.input ∧ a.previous.input_mode = a.input_mode := by
  cases he : a.todos.isEmpty with
  | true => simp [App.previous, he]
  | false => simp [App.previous, he]

theorem delete_frame (a : App) :
    a.delete_selected.1.input = a.input ∧
    a.delete_selected.1.input_mode = a.input_mode := by
  rcases hs : a.selected with _ | i
  · simp [App.delete_selected, hs]
  · by_cases hi : i < a.todos.length
    · simp [App.delete_selected, hs, hi]
    · simp [App.delete_selected, hs, hi]

theorem add_todo_buffer_inv (a : App) :
    a.add_todo.1.input_mode = false →
      a.add_todo.1.input = "" ∨ (a.add_todo.1 = a ∧ a.add_todo.1.input_mode = a.input_mode) := by
  intro _
  cases he : a.input.isEmpty with
  | true => right; exact ⟨by simp [App.add_todo, he], by simp [App.add_todo, he]⟩
  | false => left; simp [App.add_todo, he]

theorem dispatch_buffer_inv (k : KeyCode) (a b : App)
    (hd : dispatch k a = some b) (h : a.input_mode = false → a.input = "") :
    b.input_mode = false → b.input = "" := by
  intro hbm
  cases hm : a.input_mode with
  | true =>
    cases k with
    | enter =>
      have hb : b = a.add_todo.1 := by
        simp [dispatch, hm] at hd
        exact hd.symm
      rcases add_todo_buffer_inv a (by rw [← hb]; exact hbm) with h1 | h1
      · rw [hb]; exact h1
      · rw [hb] at hbm
        rw [h1.2, hm] at hbm
        exact absurd hbm (by simp)
    | backspace =>
      have hb : b = { a with input := a.input.dropRight 1, input_mode := true } := by
        simp [dispatch, hm] at hd
        exact hd.symm
      rw [hb] at hbm
      exact absurd hbm (by simp)
    | esc =>
      have hb : b = { a with input_mode := false, input := "" } := by
        simp [dispatch, hm] at hd
        exact hd.symm
      rw [hb]
    | char c =>
      have hb : b = { a with input := a.input.push c, input_mode := true } := by
        simp [dispatch, hm] at hd
        exact hd.symm
      rw [hb] at hbm
      exact absurd hbm (by simp)
    | down =>
      have hb : b = a := by simp [dispatch, hm] at hd; exact hd.symm
      rw [hb] at hbm
      rw [hm] at hbm
      exact absurd hbm (by simp)
    | up =>
      have hb : b = a := by simp [dispatch, hm] at hd; exact hd.symm
      rw [hb] at hbm
      rw [hm] at hbm
      exact absurd hbm (by simp)
    | other =>
      have hb : b = a := by simp [dispatch, hm] at hd; exact hd.symm
      rw [hb] at hbm
      rw [hm] at hbm
      exact absurd hbm (by simp)
  | false =>
    have hemp : a.input = "" := h hm
    cases k with
    | enter =>
      have hb : b = a := by simp [dispatch, hm] at hd; exact hd.symm
      rw [hb]; exact hemp
    | backspace =>
      have hb : b = a := by simp [dispatch, hm] at hd; exact hd.symm
      rw [hb]; exact hemp
    | esc =>
      have hb : b = a := by simp [dispatch, hm] at hd; exact hd.symm
      rw [hb]; exact hemp
    | down =>
      have hb : b = a.next := by simp [dispatch, hm] at hd; exact hd.symm
      rw [hb, (next_frame a).1]; exact hemp
    | up =>
      have hb : b = a.previous := by simp [dispatch, hm] at hd; exact hd.symm
      rw [hb, (previous_frame a).1]; exact hemp
    | other =>
      have hb : b = a := by simp [dispatch, hm] at hd; exact hd.symm
      rw [hb]; exact hemp
    | char c =>
      by_cases hq : c = 'q'
      · simp [dispatch, hm, hq] at hd
      · by_cases hj : c = 'j'
        · have hb : b = a.next := by simp [dispatch, hm, hq, hj] at hd; exact hd.symm
          rw [hb, (next_frame a).1]; exact hemp
        · by_cases hk : c = 'k'
          · have hb : b = a.previous := by
              simp [dispatch, hm, hq, hj, hk] at hd; exact hd.symm
            rw [hb, (previous_frame a).1]; exact hemp
          · by_cases hsp : c = ' '
            · have hb : b = a.toggle_completed.1 := by
                simp [dispatch, hm, hq, hj, hk, hsp] at hd; exact hd.symm
              rw [hb, (toggle_frame a).2.1]; exact hemp
            · by_cases hdl : c = 'd'
              · have hb : b = a.delete_selected.1 := by
                  simp [dispatch, hm, hq, hj, hk, hsp, hdl] at hd; exact hd.symm
                rw [hb, (delete_frame a).1]; exact hemp
              · by_cases ha : c = 'a'
                · have hb : b = { a with input_mode := true } := by
                    simp [dispatch, hm, hq, hj, hk, hsp, hdl, ha] at hd; exact hd.symm
                  rw [hb]; exact hemp
                · have hb : b = a := by
                    simp [dispatch, hm, hq, hj, hk, hsp, hdl, ha] at hd; exact hd.symm
                  rw [hb]; exact hemp

theorem steps_buffer_inv (ks : List KeyCode) (a : App)
    (h : a.input_mode = false → a.input = "") :
    (steps a ks).input_mode = false → (steps a ks).input = "" := by
  induction ks generalizing a with
  | nil => simpa [steps] using h
  | cons k ks ih =>
    cases hd : dispatch k a with
    | none => simpa [steps, hd] using h
    | some b =>
      have hstep : steps a (k :: ks) = steps b ks := by simp [steps, hd]
      rw [hstep]
      exact ih b (dispatch_buffer_inv k a b hd h)

theorem load_frame (file : Option Json) :
    (App.load file).input = "" ∧ (App.load file).input_mode = false := by
  cases file with
  | none => exact ⟨rfl, rfl⟩
  | some j =>
    cases hp : todosFromJson j with
    | none =>
      simp only [App.load, hp]
      exact ⟨rfl, rfl⟩
    | some ts =>
      cases hts : ts.isEmpty with
      | true => simp [App.load, hp, hts]; exact ⟨rfl, rfl⟩
      | false => simp [App.load, hp, hts]; exact ⟨rfl, rfl⟩

/-- C8: in every state reachable by dispatching key events from the
startup state, navigation mode implies an empty input buffer (the buffer
is cleared on both exits from input mode); consequently the add key in
navigation mode only flips the mode flag — the buffer is already empty and
nothing else changes. -/
theorem nav_mode_buffer_empty (file : Option Json) (ks : List KeyCode)
    (h : (steps (App.load file) ks).input_mode = false) :
    (steps (App.load file) ks).input = "" ∧
    dispatch (KeyCode.char 'a') (steps (App.load file) ks) =
      some { steps (App.load file) ks with input_mode := true } := by
  have h0 : (App.load file).input_mode = false → (App.load file).input = "" :=
    fun _ => (load_frame file).1
  refine ⟨steps_buffer_inv ks (App.load file) h0 h, ?_⟩
  simp [dispatch, h]

theorem nav_mode_buffer_empty_witness :
    (steps (App.load none) []).input = "" ∧
    dispatch (KeyCode.char 'a') (steps (App.load none) []) =
      some { steps (App.load none) [] with input_mode := true } :=
  nav_mode_buffer_empty none [] (by decide)
